import Mathlib

/-!
Shallow embedding of the NES-emulator core of this repository
(`EMUNESV0.py`, the most complete of the three near-duplicate variants;
`EMU4K4.2.25$1.0.py` is byte-identical on `Memory`/`CPU` except for a
smaller opcode table, and `EMUAI4K.py` differs only in omitting the
`& 0xFFFF` mask inside `read_word`).

Modelling conventions:
* Machine integers are `Nat` (addresses, registers, bytes); Python's
  `& 0xFF` on a possibly negative value is modelled on `Int` by
  `(v % 256).toNat`, which agrees with Python's bitmask semantics.
* A Python expression that can raise is modelled in `Option`: `none`
  is a raised exception (`ZeroDivisionError` for `% 0`, `IndexError`
  for an out-of-range list subscript), `some v` a normal result.
* Mutation is explicit state passing: `Memory.write` returns the new
  memory, `CPU.step` returns the new CPU (which carries its memory).
-/

/-- `RAM_SIZE = 0x800` — the 2 KiB internal RAM (EMUNESV0.py line 8). -/
def RAM_SIZE : Nat := 0x800

/-- The Address Space: `Memory.__init__` stores a RAM list and the
PRG-ROM buffer (EMUNESV0.py lines 12–15). -/
structure Memory where
  ram : List Nat
  prg_rom : List Nat
  deriving DecidableEq, Repr

namespace Memory

/-- `Memory(prg_rom)`: RAM is `[0] * RAM_SIZE` (EMUNESV0.py lines 13–15). -/
def init (prg_rom : List Nat) : Memory :=
  { ram := List.replicate RAM_SIZE 0, prg_rom := prg_rom }

/-- `Memory.read` (EMUNESV0.py lines 17–22).

```python
if address < 0x2000:
    return self.ram[address % RAM_SIZE]
elif address >= 0x8000:
    return self.prg_rom[(address - 0x8000) % len(self.prg_rom)]
return 0
```

`none` models a raised exception: Python raises `ZeroDivisionError`
when `len(self.prg_rom) == 0` and `address >= 0x8000`; the list
subscripts themselves are modelled by `List.getElem?`, whose `none`
is Python's `IndexError`. -/
def read (m : Memory) (address : Nat) : Option Nat :=
  if address < 0x2000 then
    m.ram[address % RAM_SIZE]?
  else if address ≥ 0x8000 then
    if m.prg_rom.length = 0 then none
    else m.prg_rom[(address - 0x8000) % m.prg_rom.length]?
  else
    some 0

/-- Python's `value & 0xFF` for an arbitrary (possibly negative) int. -/
def maskByte (value : Int) : Nat := (value % 256).toNat

/-- `Memory.write` (EMUNESV0.py lines 24–26).

```python
if address < 0x2000:
    self.ram[address % RAM_SIZE] = value & 0xFF
```

`List.set` is a no-op out of range, but `address % RAM_SIZE` is always
in range for the 0x800-long RAM, matching Python's in-range store. -/
def write (m : Memory) (address : Nat) (value : Int) : Memory :=
  if address < 0x2000 then
    { m with ram := m.ram.set (address % RAM_SIZE) (maskByte value) }
  else
    m

/-- `Memory.read_word` (EMUNESV0.py lines 28–31).

```python
lo = self.read(address)
hi = self.read((address + 1) & 0xFFFF)
return (hi << 8) | lo
``` -/
def read_word (m : Memory) (address : Nat) : Option Nat := do
  let lo ← m.read address
  let hi ← m.read ((address + 1) % 0x10000)
  return (hi <<< 8) ||| lo

end Memory

/-- `CPU.set_flag` (EMUNESV0.py lines 44–48).

```python
if value:
    self.status |= flag
else:
    self.status &= ~flag
```

Python's `status & ~flag` on non-negative ints is `Nat.ldiff status flag`
(clear the bits of `flag`); the truthiness test on `value` is made a
`Bool` at each call site. -/
def set_flag (status flag : Nat) (value : Bool) : Nat :=
  if value then status ||| flag else status.ldiff flag

/-- `CPU.get_flag` (EMUNESV0.py lines 50–51): `(self.status & flag) != 0`. -/
def get_flag (status flag : Nat) : Bool := (status &&& flag) != 0

/-- The two sequential flag updates every data instruction performs
(`set_flag(0x02, reg == 0)` then `set_flag(0x80, reg & 0x80)`), named
for use in lemma statements. -/
def setZN (status reg : Nat) : Nat :=
  set_flag (set_flag status 0x02 (reg == 0)) 0x80 ((reg &&& 0x80) != 0)

/-- The Processor State: registers and flags of `CPU.__init__`
(EMUNESV0.py lines 34–42), with the owned `Memory` made an explicit
field (Python stores `self.memory`). -/
structure CPU where
  memory : Memory
  PC : Nat
  A : Nat
  X : Nat
  Y : Nat
  SP : Nat
  status : Nat
  deriving DecidableEq, Repr

namespace CPU

/-- `CPU.__init__(memory)` (EMUNESV0.py lines 35–42): `PC` comes from the
reset vector `read_word(0xFFFC)`, which can raise when the PRG-ROM is
empty, hence the `Option`. -/
def init (memory : Memory) : Option CPU := do
  let pc ← memory.read_word 0xFFFC
  return { memory := memory, PC := pc, A := 0, X := 0, Y := 0,
           SP := 0xFD, status := 0x24 }

/-- `CPU.step` (EMUNESV0.py lines 53–98), one fetch-decode-execute cycle.
Each Python `self.PC = ... & 0xFFFF` becomes `% 0x10000` (the values are
non-negative); `(self.X - 1) & 0xFF` in DEX is computed on `Int` via
`Memory.maskByte` because the Python subtraction can go negative.
`none` models a raised exception inside a memory read. -/
def step (cpu : CPU) : Option CPU := do
  let opcode ← cpu.memory.read cpu.PC
  let pc1 := (cpu.PC + 1) % 0x10000
  if opcode = 0xA9 then       -- LDA immediate
    let value ← cpu.memory.read pc1
    let pc2 := (pc1 + 1) % 0x10000
    let status := set_flag cpu.status 0x02 (value == 0)
    let status := set_flag status 0x80 ((value &&& 0x80) != 0)
    return { cpu with PC := pc2, A := value, status := status }
  else if opcode = 0xA2 then  -- LDX immediate
    let value ← cpu.memory.read pc1
    let pc2 := (pc1 + 1) % 0x10000
    let status := set_flag cpu.status 0x02 (value == 0)
    let status := set_flag status 0x80 ((value &&& 0x80) != 0)
    return { cpu with PC := pc2, X := value, status := status }
  else if opcode = 0xA0 then  -- LDY immediate
    let value ← cpu.memory.read pc1
    let pc2 := (pc1 + 1) % 0x10000
    let status := set_flag cpu.status 0x02 (value == 0)
    let status := set_flag status 0x80 ((value &&& 0x80) != 0)
    return { cpu with PC := pc2, Y := value, status := status }
  else if opcode = 0x8D then  -- STA absolute
    let lo ← cpu.memory.read pc1
    let hi ← cpu.memory.read ((pc1 + 1) % 0x10000)
    let addr := lo ||| (hi <<< 8)
    let pc2 := (pc1 + 2) % 0x10000
    return { cpu with PC := pc2, memory := cpu.memory.write addr (cpu.A : Int) }
  else if opcode = 0x4C then  -- JMP absolute
    let lo ← cpu.memory.read pc1
    let hi ← cpu.memory.read ((pc1 + 1) % 0x10000)
    return { cpu with PC := lo ||| (hi <<< 8) }
  else if opcode = 0xEA then  -- NOP
    return { cpu with PC := pc1 }
  else if opcode = 0xE8 then  -- INX
    let x := Memory.maskByte ((cpu.X : Int) + 1)
    let status := set_flag cpu.status 0x02 (x == 0)
    let status := set_flag status 0x80 ((x &&& 0x80) != 0)
    return { cpu with PC := pc1, X := x, status := status }
  else if opcode = 0xCA then  -- DEX
    let x := Memory.maskByte ((cpu.X : Int) - 1)
    let status := set_flag cpu.status 0x02 (x == 0)
    let status := set_flag status 0x80 ((x &&& 0x80) != 0)
    return { cpu with PC := pc1, X := x, status := status }
  else if opcode = 0x00 then  -- BRK: not implemented
    return { cpu with PC := pc1 }
  else                        -- unimplemented opcode
    return { cpu with PC := pc1 }

/-- `n` consecutive `step()` calls (the driver's tick loop, with an
exception anywhere aborting the run). -/
def stepN : Nat → CPU → Option CPU
  | 0, cpu => some cpu
  | n + 1, cpu => cpu.step.bind (stepN n)

end CPU

/-- Exceptions of `load_ines_rom`: `ValueError` for a bad signature,
`IndexError` for a good signature whose header is shorter than 7 bytes. -/
inductive RomError where
  | formatError (msg : String)
  | indexError
  deriving DecidableEq, Repr

/-- The fixed iNES signature `b"NES\x1a"`. -/
def nesSignature : List Nat := [0x4E, 0x45, 0x53, 0x1A]

/-- `load_ines_rom` (EMUNESV0.py lines 123–139), with the file replaced by
its byte list; the successive `f.read(...)` calls become `take`/`drop` on
the remaining bytes, each returning fewer bytes when the data runs out,
exactly as `f.read` does.

```python
header = f.read(16)
if header[0:4] != b"NES\x1a":
    raise ValueError("Not a valid iNES ROM file.")
prg_rom_size = header[4] * 16 * 1024
chr_rom_size = header[5] * 8 * 1024
if header[6] & 0x04:
    f.read(512)
prg_rom = f.read(prg_rom_size)
chr_rom = f.read(chr_rom_size) if chr_rom_size > 0 else bytes()
return prg_rom, chr_rom
``` -/
def load_ines_rom (data : List Nat) : Except RomError (List Nat × List Nat) :=
  let header := data.take 16
  if header.take 4 ≠ nesSignature then
    .error (.formatError "Not a valid iNES ROM file.")
  else
    match header[4]?, header[5]?, header[6]? with
    | some h4, some h5, some h6 =>
      let prg_rom_size := h4 * 16 * 1024
      let chr_rom_size := h5 * 8 * 1024
      let body := data.drop 16
      let body := if h6 &&& 0x04 ≠ 0 then body.drop 512 else body
      let prg_rom := body.take prg_rom_size
      let chr_rom := if chr_rom_size > 0 then
          (body.drop prg_rom_size).take chr_rom_size
        else []
      .ok (prg_rom, chr_rom)
    | _, _, _ => .error .indexError

/-- Well-formedness of an Address Space state: the RAM buffer has its
constructed length 0x800 and all stored cells are bytes, and the PRG-ROM
was supplied as bytes (Python `bytes` objects only hold values 0–255).
Every state reachable from `Memory.init` on a byte-valued ROM satisfies
this. -/
def Memory.WF (m : Memory) : Prop :=
  m.ram.length = RAM_SIZE ∧ (∀ v ∈ m.ram, v < 256) ∧ ∀ v ∈ m.prg_rom, v < 256

/-- Well-formedness of a Processor State: its memory is well-formed and
the registers are in range. -/
def CPU.WF (cpu : CPU) : Prop :=
  cpu.memory.WF ∧ cpu.A < 256 ∧ cpu.X < 256 ∧ cpu.Y < 256 ∧ cpu.PC < 0x10000

/-- A sequence of `write` calls applied in order (interleaved `read`s do
not change the state, `read` being effect-free). -/
def applyWrites : List (Nat × Int) → Memory → Memory
  | [], m => m
  | (a, v) :: ws, m => applyWrites ws (m.write a v)

/-! ## Helper lemmas -/

/-- `Memory.maskByte` always produces a byte. -/
theorem maskByte_lt_256 (v : Int) : Memory.maskByte v < 256 := by
  unfold Memory.maskByte
  have h1 : 0 ≤ v % 256 := Int.emod_nonneg v (by norm_num)
  have h2 : v % 256 < 256 := Int.emod_lt_of_pos v (by norm_num)
  omega

/-- A successful read of a well-formed Address Space yields a byte. -/
theorem Memory.read_lt_256 (m : Memory) (a v : Nat) (hwf : m.WF)
    (h : m.read a = some v) : v < 256 := by
  obtain ⟨hlen, hram, hrom⟩ := hwf
  unfold Memory.read at h
  split at h
  · exact hram v (List.getElem?_mem h)
  · split at h
    · split at h
      · simp at h
      · exact hrom v (List.getElem?_mem h)
    · injection h with h
      omega

/-- `write` preserves well-formedness. -/
theorem Memory.write_WF (m : Memory) (a : Nat) (v : Int) (hwf : m.WF) :
    (m.write a v).WF := by
  obtain ⟨hlen, hram, hrom⟩ := hwf
  unfold Memory.write
  split
  · refine ⟨by simpa using hlen, ?_, hrom⟩
    intro x hx
    rcases List.mem_or_eq_of_mem_set hx with h | h
    · exact hram x h
    · subst h; exact maskByte_lt_256 v
  · exact ⟨hlen, hram, hrom⟩

/-- `write` never changes the PRG-ROM buffer. -/
theorem Memory.write_prg_rom (m : Memory) (a : Nat) (v : Int) :
    (m.write a v).prg_rom = m.prg_rom := by
  unfold Memory.write
  split <;> rfl

/-- A `write` is invisible to every read at or above 0x2000 (writes only
touch the RAM window). -/
theorem Memory.read_write_high (m : Memory) (w : Nat) (v : Int) (a : Nat)
    (ha : 0x2000 ≤ a) : (m.write w v).read a = m.read a := by
  unfold Memory.read
  rw [if_neg (show ¬a < 0x2000 by omega)]
  rw [if_neg (show ¬a < 0x2000 by omega)]
  rw [Memory.write_prg_rom]

/-- Reads strictly inside the unmapped window [0x2000, 0x8000) are 0. -/
theorem Memory.read_mid (m : Memory) (a : Nat) (h1 : 0x2000 ≤ a)
    (h2 : a < 0x8000) : m.read a = some 0 := by
  unfold Memory.read
  rw [if_neg (by omega), if_neg (by omega)]

/-! ## C1 -/

/-- C1 counterexample: the claim says `read` is total even over a
PRG-ROM of length zero, but reading any address ≥ 0x8000 of an Address
Space built over an empty PRG-ROM evaluates `(address - 0x8000) % 0`,
which raises `ZeroDivisionError` in Python (modelled as `none`). -/
theorem c1_counterexample : (Memory.init []).read 0x8000 = none := by
  simp [Memory.init, Memory.read]

/-- C1 (amended): Address Space read is total on every well-formed state
whose PRG-ROM is nonempty: for every address, `read` returns a byte
without raising, and addresses in [0x2000, 0x8000) return 0. (With a
zero-length PRG-ROM, reads at addresses ≥ 0x8000 raise
`ZeroDivisionError`; all other addresses still return a byte.) -/
theorem c1_read_total (m : Memory) (a : Nat) (hwf : m.WF)
    (hrom : m.prg_rom ≠ []) :
    (∃ v, m.read a = some v ∧ v < 256) ∧
    (0x2000 ≤ a → a < 0x8000 → m.read a = some 0) := by
  obtain ⟨hlen, hram, hprg⟩ := hwf
  constructor
  · unfold Memory.read
    split
    · have hidx : a % RAM_SIZE < m.ram.length := by
        rw [hlen]; exact Nat.mod_lt _ (by norm_num [RAM_SIZE])
      refine ⟨m.ram[a % RAM_SIZE], List.getElem?_eq_getElem hidx, ?_⟩
      exact hram _ (List.getElem_mem hidx)
    · split
      · have hlen0 : m.prg_rom.length ≠ 0 := by
          simpa using List.length_pos_of_ne_nil hrom |>.ne'
        rw [if_neg hlen0]
        have hidx : (a - 0x8000) % m.prg_rom.length < m.prg_rom.length :=
          Nat.mod_lt _ (Nat.pos_of_ne_zero hlen0)
        refine ⟨m.prg_rom[(a - 0x8000) % m.prg_rom.length],
          List.getElem?_eq_getElem hidx, ?_⟩
        exact hprg _ (List.getElem_mem hidx)
      · exact ⟨0, rfl, by norm_num⟩
  · intro h1 h2
    exact m.read_mid a h1 h2

/-- C1 witness: instance at a concrete well-formed memory and address. -/
theorem c1_witness :
    (∃ v, (Memory.init [7]).read 0x2000 = some v ∧ v < 256) ∧
    (0x2000 ≤ 0x2000 → 0x2000 < 0x8000 → (Memory.init [7]).read 0x2000 = some 0) := by
  refine c1_read_total (Memory.init [7]) 0x2000 ⟨?_, ?_, ?_⟩
    (show ([7] : List Nat) ≠ [] by simp)
  · show (List.replicate RAM_SIZE 0).length = RAM_SIZE
    simp
  · intro v hv
    have := List.eq_of_mem_replicate (show v ∈ List.replicate RAM_SIZE 0 from hv)
    omega
  · intro v hv
    have : v ∈ [7] := hv
    simp at this
    omega

/-! ## C2 -/

/-- C2 counterexample: the claim quantifies `a` over all of [0, 0x2000),
but for `a = 0x1800`, `k = 1` the mirror address `a + k*0x800 = 0x2000`
falls in the unmapped window and reads 0, while `read(a mod 0x800) =
read(0)` returns the RAM cell — after `write(0, 5)` the two differ. -/
theorem c2_counterexample :
    0x1800 < 0x2000 ∧
    ((Memory.init []).write 0 5).read (0x1800 + 1 * 0x800) ≠
      ((Memory.init []).write 0 5).read (0x1800 % 0x800) := by
  constructor
  · norm_num
  · simp only [Memory.init, Memory.write, Memory.read, Memory.maskByte, RAM_SIZE]
    norm_num
    decide

/-- C2 (amended): RAM mirroring holds for the mirror addresses that stay
inside the RAM window: for every state (hence both before and after any
write), every `k ≤ 3` and every `a` with `a + k*0x800 < 0x2000`,
`read(a + k*0x800) = read(a mod 0x800)`. -/
theorem c2_ram_mirroring (m : Memory) (a k : Nat) (_hk : k ≤ 3)
    (hlt : a + k * 0x800 < 0x2000) :
    m.read (a + k * 0x800) = m.read (a % 0x800) := by
  unfold Memory.read
  rw [if_pos hlt, if_pos (by omega)]
  have : (a + k * 0x800) % RAM_SIZE = a % 0x800 % RAM_SIZE := by
    simp only [RAM_SIZE]
    omega
  rw [this]

/-- C2 witness: instance at a concrete memory, `a = 0x7FD`, `k = 3`. -/
theorem c2_witness :
    (Memory.init []).read (0x7FD + 3 * 0x800) = (Memory.init []).read (0x7FD % 0x800) :=
  c2_ram_mirroring (Memory.init []) 0x7FD 3 (by norm_num) (by norm_num)

/-! ## CPU step characterization lemmas

For each opcode branch of `CPU.step`, a forward lemma (computing the
result from successful fetches) and, for the operand-taking opcodes, an
inversion lemma (recovering the operand reads from a successful step). -/

theorem step_lda_fwd (cpu : CPU) (v : Nat) (h : cpu.memory.read cpu.PC = some 0xA9)
    (hv : cpu.memory.read ((cpu.PC + 1) % 0x10000) = some v) :
    cpu.step = some { cpu with PC := (cpu.PC + 2) % 0x10000, A := v, status := setZN cpu.status v } := by
  unfold CPU.step
  rw [h]
  simp only [Option.pure_def, Option.bind_eq_bind, Option.some_bind]
  rw [if_pos trivial, hv]
  simp only [Option.some_bind, Option.some.injEq]
  unfold setZN
  congr 1
  omega

theorem step_lda_inv (cpu cpu' : CPU) (h : cpu.memory.read cpu.PC = some 0xA9)
    (hs : cpu.step = some cpu') :
    ∃ v, cpu.memory.read ((cpu.PC + 1) % 0x10000) = some v ∧
      cpu' = { cpu with PC := (cpu.PC + 2) % 0x10000, A := v, status := setZN cpu.status v } := by
  cases hv : cpu.memory.read ((cpu.PC + 1) % 0x10000) with
  | none =>
    unfold CPU.step at hs
    rw [h] at hs
    simp only [Option.pure_def, Option.bind_eq_bind, Option.some_bind] at hs
    rw [if_pos trivial, hv] at hs
    simp at hs
  | some v =>
    refine ⟨v, rfl, ?_⟩
    rw [step_lda_fwd cpu v h hv] at hs
    exact (Option.some.injEq _ _ ▸ hs).symm

theorem step_ldx_fwd (cpu : CPU) (v : Nat) (h : cpu.memory.read cpu.PC = some 0xA2)
    (hv : cpu.memory.read ((cpu.PC + 1) % 0x10000) = some v) :
    cpu.step = some { cpu with PC := (cpu.PC + 2) % 0x10000, X := v, status := setZN cpu.status v } := by
  unfold CPU.step
  rw [h]
  simp only [Option.pure_def, Option.bind_eq_bind, Option.some_bind]
  norm_num
  rw [hv]
  simp only [Option.some_bind, Option.some.injEq]
  unfold setZN
  congr 1

theorem step_ldx_inv (cpu cpu' : CPU) (h : cpu.memory.read cpu.PC = some 0xA2)
    (hs : cpu.step = some cpu') :
    ∃ v, cpu.memory.read ((cpu.PC + 1) % 0x10000) = some v ∧
      cpu' = { cpu with PC := (cpu.PC + 2) % 0x10000, X := v, status := setZN cpu.status v } := by
  cases hv : cpu.memory.read ((cpu.PC + 1) % 0x10000) with
  | none =>
    unfold CPU.step at hs
    rw [h] at hs
    simp only [Option.pure_def, Option.bind_eq_bind, Option.some_bind] at hs
    norm_num at hs
    rw [hv] at hs
    simp at hs
  | some v =>
    refine ⟨v, rfl, ?_⟩
    rw [step_ldx_fwd cpu v h hv] at hs
    exact (Option.some.injEq _ _ ▸ hs).symm

theorem step_ldy_fwd (cpu : CPU) (v : Nat) (h : cpu.memory.read cpu.PC = some 0xA0)
    (hv : cpu.memory.read ((cpu.PC + 1) % 0x10000) = some v) :
    cpu.step = some { cpu with PC := (cpu.PC + 2) % 0x10000, Y := v, status := setZN cpu.status v } := by
  unfold CPU.step
  rw [h]
  simp only [Option.pure_def, Option.bind_eq_bind, Option.some_bind]
  norm_num
  rw [hv]
  simp only [Option.some_bind, Option.some.injEq]
  unfold setZN
  congr 1

theorem step_ldy_inv (cpu cpu' : CPU) (h : cpu.memory.read cpu.PC = some 0xA0)
    (hs : cpu.step = some cpu') :
    ∃ v, cpu.memory.read ((cpu.PC + 1) % 0x10000) = some v ∧
      cpu' = { cpu with PC := (cpu.PC + 2) % 0x10000, Y := v, status := setZN cpu.status v } := by
  cases hv : cpu.memory.read ((cpu.PC + 1) % 0x10000) with
  | none =>
    unfold CPU.step at hs
    rw [h] at hs
    simp only [Option.pure_def, Option.bind_eq_bind, Option.some_bind] at hs
    norm_num at hs
    rw [hv] at hs
    simp at hs
  | some v =>
    refine ⟨v, rfl, ?_⟩
    rw [step_ldy_fwd cpu v h hv] at hs
    exact (Option.some.injEq _ _ ▸ hs).symm

theorem step_sta_fwd (cpu : CPU) (lo hi : Nat) (h : cpu.memory.read cpu.PC = some 0x8D)
    (hlo : cpu.memory.read ((cpu.PC + 1) % 0x10000) = some lo)
    (hhi : cpu.memory.read ((cpu.PC + 2) % 0x10000) = some hi) :
    cpu.step = some { cpu with PC := (cpu.PC + 3) % 0x10000, memory := cpu.memory.write (lo ||| (hi <<< 8)) (cpu.A : Int) } := by
  unfold CPU.step
  rw [h]
  simp only [Option.pure_def, Option.bind_eq_bind, Option.some_bind]
  norm_num
  rw [hlo]
  simp only [Option.some_bind]
  rw [show (cpu.PC + 1 + 1) % 0x10000 = (cpu.PC + 2) % 0x10000 by omega, hhi]
  simp only [Option.some_bind, Option.some.injEq]

theorem step_sta_inv (cpu cpu' : CPU) (h : cpu.memory.read cpu.PC = some 0x8D)
    (hs : cpu.step = some cpu') :
    ∃ lo hi, cpu.memory.read ((cpu.PC + 1) % 0x10000) = some lo ∧
      cpu.memory.read ((cpu.PC + 2) % 0x10000) = some hi ∧
      cpu' = { cpu with PC := (cpu.PC + 3) % 0x10000, memory := cpu.memory.write (lo ||| (hi <<< 8)) (cpu.A : Int) } := by
  cases hlo : cpu.memory.read ((cpu.PC + 1) % 0x10000) with
  | none =>
    unfold CPU.step at hs
    rw [h] at hs
    simp only [Option.pure_def, Option.bind_eq_bind, Option.some_bind] at hs
    norm_num at hs
    rw [hlo] at hs
    simp at hs
  | some lo =>
    cases hhi : cpu.memory.read ((cpu.PC + 2) % 0x10000) with
    | none =>
      unfold CPU.step at hs
      rw [h] at hs
      simp only [Option.pure_def, Option.bind_eq_bind, Option.some_bind] at hs
      norm_num at hs
      rw [hlo] at hs
      simp only [Option.some_bind] at hs
      rw [show (cpu.PC + 1 + 1) % 0x10000 = (cpu.PC + 2) % 0x10000 by omega, hhi] at hs
      simp at hs
    | some hi =>
      refine ⟨lo, hi, rfl, rfl, ?_⟩
      rw [step_sta_fwd cpu lo hi h hlo hhi] at hs
      exact (Option.some.injEq _ _ ▸ hs).symm

theorem step_jmp_fwd (cpu : CPU) (lo hi : Nat) (h : cpu.memory.read cpu.PC = some 0x4C)
    (hlo : cpu.memory.read ((cpu.PC + 1) % 0x10000) = some lo)
    (hhi : cpu.memory.read ((cpu.PC + 2) % 0x10000) = some hi) :
    cpu.step = some { cpu with PC := lo ||| (hi <<< 8) } := by
  unfold CPU.step
  rw [h]
  simp only [Option.pure_def, Option.bind_eq_bind, Option.some_bind]
  norm_num
  rw [hlo]
  simp only [Option.some_bind]
  rw [show (cpu.PC + 1 + 1) % 0x10000 = (cpu.PC + 2) % 0x10000 by omega, hhi]
  simp only [Option.some_bind, Option.some.injEq]

theorem step_jmp_inv (cpu cpu' : CPU) (h : cpu.memory.read cpu.PC = some 0x4C)
    (hs : cpu.step = some cpu') :
    ∃ lo hi, cpu.memory.read ((cpu.PC + 1) % 0x10000) = some lo ∧
      cpu.memory.read ((cpu.PC + 2) % 0x10000) = some hi ∧
      cpu' = { cpu with PC := lo ||| (hi <<< 8) } := by
  cases hlo : cpu.memory.read ((cpu.PC + 1) % 0x10000) with
  | none =>
    unfold CPU.step at hs
    rw [h] at hs
    simp only [Option.pure_def, Option.bind_eq_bind, Option.some_bind] at hs
    norm_num at hs
    rw [hlo] at hs
    simp at hs
  | some lo =>
    cases hhi : cpu.memory.read ((cpu.PC + 2) % 0x10000) with
    | none =>
      unfold CPU.step at hs
      rw [h] at hs
      simp only [Option.pure_def, Option.bind_eq_bind, Option.some_bind] at hs
      norm_num at hs
      rw [hlo] at hs
      simp only [Option.some_bind] at hs
      rw [show (cpu.PC + 1 + 1) % 0x10000 = (cpu.PC + 2) % 0x10000 by omega, hhi] at hs
      simp at hs
    | some hi =>
      refine ⟨lo, hi, rfl, rfl, ?_⟩
      rw [step_jmp_fwd cpu lo hi h hlo hhi] at hs
      exact (Option.some.injEq _ _ ▸ hs).symm

theorem step_inx_fwd (cpu : CPU) (h : cpu.memory.read cpu.PC = some 0xE8) :
    cpu.step = some { cpu with PC := (cpu.PC + 1) % 0x10000, X := Memory.maskByte ((cpu.X : Int) + 1), status := setZN cpu.status (Memory.maskByte ((cpu.X : Int) + 1)) } := by
  unfold CPU.step
  rw [h]
  simp only [Option.pure_def, Option.bind_eq_bind, Option.some_bind]
  norm_num [setZN]

theorem step_dex_fwd (cpu : CPU) (h : cpu.memory.read cpu.PC = some 0xCA) :
    cpu.step = some { cpu with PC := (cpu.PC + 1) % 0x10000, X := Memory.maskByte ((cpu.X : Int) - 1), status := setZN cpu.status (Memory.maskByte ((cpu.X : Int) - 1)) } := by
  unfold CPU.step
  rw [h]
  simp only [Option.pure_def, Option.bind_eq_bind, Option.some_bind]
  norm_num [setZN]

theorem step_nop_like (cpu : CPU) (op : Nat) (h : cpu.memory.read cpu.PC = some op)
    (hA9 : op ≠ 0xA9) (hA2 : op ≠ 0xA2) (hA0 : op ≠ 0xA0) (h8D : op ≠ 0x8D)
    (h4C : op ≠ 0x4C) (hE8 : op ≠ 0xE8) (hCA : op ≠ 0xCA) :
    cpu.step = some { cpu with PC := (cpu.PC + 1) % 0x10000 } := by
  unfold CPU.step
  rw [h]
  simp only [Option.pure_def, Option.bind_eq_bind, Option.some_bind]
  rw [if_neg hA9, if_neg hA2, if_neg hA0, if_neg h8D, if_neg h4C]
  rw [if_neg hE8, if_neg hCA]
  split_ifs <;> rfl

/-! ## C3 -/

/-- C3: PC advance law. For every starting processor state whose `step()`
fetches opcode 0xA9, 0xA2 or 0xA0, PC advances by exactly 2 (mod
0x10000); for 0x8D by exactly 3; for 0x4C, PC is set absolutely to the
little-endian operand word (not relative to the instruction); for 0xEA,
0xE8, 0xCA and 0x00, PC advances by exactly 1. -/
theorem c3_pc_advance (cpu cpu' : CPU) (op : Nat)
    (hop : cpu.memory.read cpu.PC = some op) (hs : cpu.step = some cpu') :
    ((op = 0xA9 ∨ op = 0xA2 ∨ op = 0xA0) → cpu'.PC = (cpu.PC + 2) % 0x10000) ∧
    (op = 0x8D → cpu'.PC = (cpu.PC + 3) % 0x10000) ∧
    (op = 0x4C → ∀ lo hi, cpu.memory.read ((cpu.PC + 1) % 0x10000) = some lo →
      cpu.memory.read ((cpu.PC + 2) % 0x10000) = some hi → cpu'.PC = lo ||| (hi <<< 8)) ∧
    ((op = 0xEA ∨ op = 0xE8 ∨ op = 0xCA ∨ op = 0x00) → cpu'.PC = (cpu.PC + 1) % 0x10000) := by
  refine ⟨?_, ?_, ?_, ?_⟩
  · rintro (rfl | rfl | rfl)
    · obtain ⟨v, -, rfl⟩ := step_lda_inv cpu cpu' hop hs
      rfl
    · obtain ⟨v, -, rfl⟩ := step_ldx_inv cpu cpu' hop hs
      rfl
    · obtain ⟨v, -, rfl⟩ := step_ldy_inv cpu cpu' hop hs
      rfl
  · rintro rfl
    obtain ⟨lo, hi, -, -, rfl⟩ := step_sta_inv cpu cpu' hop hs
    rfl
  · rintro rfl lo hi hlo hhi
    obtain ⟨lo', hi', hlo', hhi', rfl⟩ := step_jmp_inv cpu cpu' hop hs
    rw [hlo] at hlo'
    rw [hhi] at hhi'
    injection hlo' with hlo'
    injection hhi' with hhi'
    rw [hlo', hhi']
  · rintro (rfl | rfl | rfl | rfl)
    · rw [step_nop_like cpu 0xEA hop (by decide) (by decide) (by decide) (by decide)
        (by decide) (by decide) (by decide)] at hs
      injection hs with hs
      rw [← hs]
    · rw [step_inx_fwd cpu hop] at hs
      injection hs with hs
      rw [← hs]
    · rw [step_dex_fwd cpu hop] at hs
      injection hs with hs
      rw [← hs]
    · rw [step_nop_like cpu 0x00 hop (by decide) (by decide) (by decide) (by decide)
        (by decide) (by decide) (by decide)] at hs
      injection hs with hs
      rw [← hs]

/-- C3 witness: a concrete CPU over ROM `[0xEA]` fetches NOP at
PC = 0x8000 and advances to 0x8001. -/
theorem c3_witness :
    ((0xEA = 0xA9 ∨ 0xEA = 0xA2 ∨ 0xEA = 0xA0) → (0x8001 : Nat) = (0x8000 + 2) % 0x10000) ∧
    (0xEA = 0x8D → (0x8001 : Nat) = (0x8000 + 3) % 0x10000) ∧
    (0xEA = 0x4C → ∀ lo hi,
      (Memory.init [0xEA]).read ((0x8000 + 1) % 0x10000) = some lo →
      (Memory.init [0xEA]).read ((0x8000 + 2) % 0x10000) = some hi →
      (0x8001 : Nat) = lo ||| (hi <<< 8)) ∧
    ((0xEA = 0xEA ∨ 0xEA = 0xE8 ∨ 0xEA = 0xCA ∨ 0xEA = 0x00) →
      (0x8001 : Nat) = (0x8000 + 1) % 0x10000) := by
  have hop : (Memory.init [0xEA]).read 0x8000 = some 0xEA := by
    simp [Memory.init, Memory.read]
  have hs : (⟨Memory.init [0xEA], 0x8000, 0, 0, 0, 0xFD, 0x24⟩ : CPU).step =
      some ⟨Memory.init [0xEA], 0x8001, 0, 0, 0, 0xFD, 0x24⟩ := by
    rw [step_nop_like _ 0xEA hop (by decide) (by decide) (by decide) (by decide)
      (by decide) (by decide) (by decide)]
    rfl
  exact c3_pc_advance ⟨Memory.init [0xEA], 0x8000, 0, 0, 0, 0xFD, 0x24⟩
    ⟨Memory.init [0xEA], 0x8001, 0, 0, 0, 0xFD, 0x24⟩ 0xEA hop hs

/-! ## C6 -/

/-- C6: Unimplemented-opcode policy. Whenever the fetched opcode is not
one of the eight implemented instructions (0xA9, 0xA2, 0xA0, 0x8D, 0x4C,
0xEA, 0xE8, 0xCA) — which includes BRK (0x00) and every undecoded value —
`step()` raises no error and behaves as a NOP: `A`, `X`, `Y`, `SP`, the
status flags, and the whole Address Space (RAM and ROM) are unchanged,
and PC advances by exactly 1 (mod 0x10000). -/
theorem c6_unimplemented_nop (cpu : CPU) (op : Nat)
    (hop : cpu.memory.read cpu.PC = some op)
    (hA9 : op ≠ 0xA9) (hA2 : op ≠ 0xA2) (hA0 : op ≠ 0xA0) (h8D : op ≠ 0x8D)
    (h4C : op ≠ 0x4C) (hE8 : op ≠ 0xE8) (hCA : op ≠ 0xCA) :
    cpu.step = some { cpu with PC := (cpu.PC + 1) % 0x10000 } :=
  step_nop_like cpu op hop hA9 hA2 hA0 h8D h4C hE8 hCA

/-- C6 witness: a concrete CPU fetching the undecoded opcode 0x02. -/
theorem c6_witness :
    (⟨Memory.init [0x02], 0x8000, 3, 4, 5, 0xFD, 0x24⟩ : CPU).step =
      some ⟨Memory.init [0x02], 0x8001, 3, 4, 5, 0xFD, 0x24⟩ :=
  c6_unimplemented_nop ⟨Memory.init [0x02], 0x8000, 3, 4, 5, 0xFD, 0x24⟩ 0x02
    (by simp [Memory.init, Memory.read]) (by decide) (by decide) (by decide)
    (by decide) (by decide) (by decide) (by decide)

/-! ## C4 -/

/-- C4: little-endian word fetch with wrap. `read_word(a)` combines
`read(a)` as the low byte and `read((a+1) mod 0x10000)` as the high
byte, each going through the same mirroring rules as `read`; and a
Processor State constructed over an Address Space whose bytes at
0xFFFC/0xFFFD are 0x34/0x12 starts with PC = 0x1234. -/
theorem c4_read_word (m : Memory) :
    (∀ a lo hi, m.read a = some lo → m.read ((a + 1) % 0x10000) = some hi →
      m.read_word a = some (lo ||| (hi <<< 8))) ∧
    (∀ cpu, m.read 0xFFFC = some 0x34 → m.read 0xFFFD = some 0x12 →
      CPU.init m = some cpu → cpu.PC = 0x1234) := by
  constructor
  · intro a lo hi hlo hhi
    unfold Memory.read_word
    rw [hlo]
    simp only [Option.pure_def, Option.bind_eq_bind, Option.some_bind]
    rw [hhi]
    simp only [Option.some_bind, Option.some.injEq]
    exact Nat.or_comm _ _
  · intro cpu hlo hhi hinit
    unfold CPU.init Memory.read_word at hinit
    rw [hlo] at hinit
    simp only [Option.pure_def, Option.bind_eq_bind, Option.some_bind] at hinit
    rw [show (0xFFFC + 1) % 0x10000 = 0xFFFD by norm_num, hhi] at hinit
    simp only [Option.some_bind, Option.some.injEq] at hinit
    rw [← hinit]
    show 18 <<< 8 ||| 52 = 4660
    decide

/-- C4 witness: a 4-byte ROM putting 0x34/0x12 at the reset vector. -/
theorem c4_witness :
    (Memory.init [0x34, 0x12, 0x00, 0x00]).read_word 0xFFFC = some (0x34 ||| (0x12 <<< 8)) ∧
    (⟨Memory.init [0x34, 0x12, 0x00, 0x00], 0x1234, 0, 0, 0, 0xFD, 0x24⟩ : CPU).PC = 0x1234 := by
  have hlo : (Memory.init [0x34, 0x12, 0x00, 0x00]).read 0xFFFC = some 0x34 := by
    simp [Memory.init, Memory.read]
  have hhi : (Memory.init [0x34, 0x12, 0x00, 0x00]).read 0xFFFD = some 0x12 := by
    simp [Memory.init, Memory.read]
  constructor
  · exact (c4_read_word _).1 0xFFFC 0x34 0x12 hlo
      (by rw [show (0xFFFC + 1) % 0x10000 = 0xFFFD by norm_num]; exact hhi)
  · exact (c4_read_word _).2 _ hlo hhi rfl

/-! ## Flag-update helper lemmas -/

theorem setZN_testBit_one (s r : Nat) : (setZN s r).testBit 1 = (r == 0) := by
  unfold setZN set_flag
  rcases h0 : (r == 0) with _ | _ <;> rcases h7 : ((r &&& 0x80) != 0) with _ | _ <;>
    simp [Nat.testBit_lor, Nat.testBit_ldiff,
      show Nat.testBit 2 1 = true by decide, show Nat.testBit 128 1 = false by decide]

theorem setZN_testBit_seven (s r : Nat) : (setZN s r).testBit 7 = r.testBit 7 := by
  have hb : ((r &&& 0x80) != 0) = r.testBit 7 := by
    rw [show (0x80 : Nat) = 2 ^ 7 by norm_num, Nat.and_two_pow]
    rcases hr : r.testBit 7 <;> simp [hr]
  unfold setZN set_flag
  rw [hb]
  rcases h0 : (r == 0) with _ | _ <;> rcases hr : r.testBit 7 <;>
    simp [Nat.testBit_lor, Nat.testBit_ldiff, hr,
      show Nat.testBit 2 7 = false by decide, show Nat.testBit 128 7 = true by decide]

theorem setZN_testBit_other (s r i : Nat) (h1 : i ≠ 1) (h7 : i ≠ 7) :
    (setZN s r).testBit i = s.testBit i := by
  have t2 : Nat.testBit 2 i = false := by
    rw [show (2 : Nat) = 2 ^ 1 by norm_num]
    exact Nat.testBit_two_pow_of_ne (fun h => h1 h.symm)
  have t128 : Nat.testBit 128 i = false := by
    rw [show (128 : Nat) = 2 ^ 7 by norm_num]
    exact Nat.testBit_two_pow_of_ne (fun h => h7 h.symm)
  unfold setZN set_flag
  rcases h0 : (r == 0) with _ | _ <;> rcases hb : ((r &&& 0x80) != 0) with _ | _ <;>
    simp [Nat.testBit_lor, Nat.testBit_ldiff, t2, t128]

theorem setZN_and_two (s r : Nat) :
    (setZN s r) &&& 0x02 = if r = 0 then 0x02 else 0 := by
  rw [show (0x02 : Nat) = 2 ^ 1 by norm_num, Nat.and_two_pow, setZN_testBit_one]
  rcases h : (r == 0) with _ | _
  · simp_all
  · simp_all

theorem setZN_and_128 (s r : Nat) : (setZN s r) &&& 0x80 = r &&& 0x80 := by
  rw [show (0x80 : Nat) = 2 ^ 7 by norm_num, Nat.and_two_pow, Nat.and_two_pow,
    setZN_testBit_seven]

/-! ## C5 -/

/-- C5: flag correctness. After a `step()` executing LDA/LDX/LDY (any
operand value) or INX/DEX (any starting X), the Zero flag (status bit 1,
mask 0x02) is set iff the affected register is 0, the Negative flag
(status bit 7, mask 0x80) equals bit 7 of that register, and no other
status bit changes (no other flag semantics are applied). -/
theorem c5_flag_correctness (cpu cpu' : CPU) (op : Nat)
    (hop : cpu.memory.read cpu.PC = some op) (hs : cpu.step = some cpu') :
    (op = 0xA9 →
      (cpu'.status &&& 0x02 = if cpu'.A = 0 then 0x02 else 0) ∧
      cpu'.status &&& 0x80 = cpu'.A &&& 0x80 ∧
      ∀ i, i ≠ 1 → i ≠ 7 → cpu'.status.testBit i = cpu.status.testBit i) ∧
    ((op = 0xA2 ∨ op = 0xE8 ∨ op = 0xCA) →
      (cpu'.status &&& 0x02 = if cpu'.X = 0 then 0x02 else 0) ∧
      cpu'.status &&& 0x80 = cpu'.X &&& 0x80 ∧
      ∀ i, i ≠ 1 → i ≠ 7 → cpu'.status.testBit i = cpu.status.testBit i) ∧
    (op = 0xA0 →
      (cpu'.status &&& 0x02 = if cpu'.Y = 0 then 0x02 else 0) ∧
      cpu'.status &&& 0x80 = cpu'.Y &&& 0x80 ∧
      ∀ i, i ≠ 1 → i ≠ 7 → cpu'.status.testBit i = cpu.status.testBit i) := by
  refine ⟨?_, ?_, ?_⟩
  · rintro rfl
    obtain ⟨v, -, rfl⟩ := step_lda_inv cpu cpu' hop hs
    exact ⟨setZN_and_two _ _, setZN_and_128 _ _,
      fun i h1 h7 => setZN_testBit_other _ _ i h1 h7⟩
  · rintro (rfl | rfl | rfl)
    · obtain ⟨v, -, rfl⟩ := step_ldx_inv cpu cpu' hop hs
      exact ⟨setZN_and_two _ _, setZN_and_128 _ _,
        fun i h1 h7 => setZN_testBit_other _ _ i h1 h7⟩
    · rw [step_inx_fwd cpu hop] at hs
      injection hs with hs
      rw [← hs]
      exact ⟨setZN_and_two _ _, setZN_and_128 _ _,
        fun i h1 h7 => setZN_testBit_other _ _ i h1 h7⟩
    · rw [step_dex_fwd cpu hop] at hs
      injection hs with hs
      rw [← hs]
      exact ⟨setZN_and_two _ _, setZN_and_128 _ _,
        fun i h1 h7 => setZN_testBit_other _ _ i h1 h7⟩
  · rintro rfl
    obtain ⟨v, -, rfl⟩ := step_ldy_inv cpu cpu' hop hs
    exact ⟨setZN_and_two _ _, setZN_and_128 _ _,
      fun i h1 h7 => setZN_testBit_other _ _ i h1 h7⟩

/-- C5 witness: LDA #$05 executed from a concrete state. -/
theorem c5_witness :
    ((0xA9 : Nat) = 0xA9 →
      ((setZN 0x24 0x05) &&& 0x02 = if (0x05 : Nat) = 0 then 0x02 else 0) ∧
      (setZN 0x24 0x05) &&& 0x80 = (0x05 : Nat) &&& 0x80 ∧
      ∀ i, i ≠ 1 → i ≠ 7 → (setZN 0x24 0x05).testBit i = Nat.testBit 0x24 i) ∧
    (((0xA9 : Nat) = 0xA2 ∨ (0xA9 : Nat) = 0xE8 ∨ (0xA9 : Nat) = 0xCA) →
      ((setZN 0x24 0x05) &&& 0x02 = if (0 : Nat) = 0 then 0x02 else 0) ∧
      (setZN 0x24 0x05) &&& 0x80 = (0 : Nat) &&& 0x80 ∧
      ∀ i, i ≠ 1 → i ≠ 7 → (setZN 0x24 0x05).testBit i = Nat.testBit 0x24 i) ∧
    ((0xA9 : Nat) = 0xA0 →
      ((setZN 0x24 0x05) &&& 0x02 = if (0 : Nat) = 0 then 0x02 else 0) ∧
      (setZN 0x24 0x05) &&& 0x80 = (0 : Nat) &&& 0x80 ∧
      ∀ i, i ≠ 1 → i ≠ 7 → (setZN 0x24 0x05).testBit i = Nat.testBit 0x24 i) := by
  have hop : (Memory.init [0xA9, 0x05]).read 0x8000 = some 0xA9 := by
    simp [Memory.init, Memory.read]
  have hv : (Memory.init [0xA9, 0x05]).read ((0x8000 + 1) % 0x10000) = some 0x05 := by
    rw [show (0x8000 + 1) % 0x10000 = 0x8001 by norm_num]
    simp [Memory.init, Memory.read]
  exact c5_flag_correctness ⟨Memory.init [0xA9, 0x05], 0x8000, 0, 0, 0, 0xFD, 0x24⟩
    ⟨Memory.init [0xA9, 0x05], 0x8002, 0x05, 0, 0, 0xFD, setZN 0x24 0x05⟩ 0xA9 hop
    (step_lda_fwd ⟨Memory.init [0xA9, 0x05], 0x8000, 0, 0, 0, 0xFD, 0x24⟩ 0x05 hop hv)

/-! ## C7 -/

/-- C7: ROM parser validation. Parsing a byte buffer whose first four
bytes are not `NES\x1a` raises the `ValueError` (FormatError); parsing a
buffer that starts with the signature, has header bytes `[4] = 1`,
`[5] = 1`, `[6] = 0` (so no 512-byte trainer skip, which happens only
when header byte 6 bit 2 is set) followed by 16384 PRG bytes and 8192
CHR bytes, returns exactly those two byte ranges, unchanged and of the
declared lengths. -/
theorem c7_rom_parsing :
    (∀ data : List Nat, data.take 4 ≠ nesSignature →
      load_ines_rom data = .error (.formatError "Not a valid iNES ROM file.")) ∧
    (∀ header prg chr : List Nat, header.length = 16 →
      header.take 4 = nesSignature → header[4]? = some 1 → header[5]? = some 1 →
      header[6]? = some 0 → prg.length = 16384 → chr.length = 8192 →
      load_ines_rom (header ++ (prg ++ chr)) = .ok (prg, chr)) := by
  constructor
  · intro data hsig
    unfold load_ines_rom
    rw [if_pos]
    rw [List.take_take]
    norm_num
    exact hsig
  · intro header prg chr hlen hsig h4 h5 h6 hprg hchr
    have htake : (header ++ (prg ++ chr)).take 16 = header := by
      rw [← hlen, List.take_left]
    have hdrop : (header ++ (prg ++ chr)).drop 16 = prg ++ chr := by
      rw [← hlen, List.drop_left]
    unfold load_ines_rom
    rw [htake, hdrop, if_neg (fun h => h hsig), h4, h5, h6]
    simp only
    rw [if_neg (by norm_num)]
    rw [show (1 : Nat) * 16 * 1024 = 16384 by norm_num,
      show (1 : Nat) * 8 * 1024 = 8192 by norm_num]
    rw [if_pos (by norm_num)]
    rw [← hprg, List.take_left, List.drop_left]
    rw [List.take_of_length_le hchr.le]

/-- C7 witness: a wrong-signature buffer, and a well-formed 24592-byte
image built from the signature, header values 1/1/0, and constant
PRG/CHR payloads. -/
theorem c7_witness :
    load_ines_rom [0x4D, 0x45, 0x53, 0x1A] =
      .error (.formatError "Not a valid iNES ROM file.") ∧
    load_ines_rom ((nesSignature ++ [1, 1, 0] ++ List.replicate 9 0) ++
        (List.replicate 16384 0xAB ++ List.replicate 8192 0xCD)) =
      .ok (List.replicate 16384 0xAB, List.replicate 8192 0xCD) := by
  constructor
  · exact c7_rom_parsing.1 [0x4D, 0x45, 0x53, 0x1A] (by decide)
  · refine c7_rom_parsing.2 (nesSignature ++ [1, 1, 0] ++ List.replicate 9 0)
      (List.replicate 16384 0xAB) (List.replicate 8192 0xCD) (by simp [nesSignature])
      (by simp [nesSignature]) (by simp [nesSignature]) (by simp [nesSignature])
      (by simp [nesSignature]) (by rw [List.length_replicate]) (by rw [List.length_replicate])

/-! ## C10 -/

/-- `write` followed by `read` at the same RAM-window address returns the
masked stored value. -/
theorem Memory.write_read_back (m : Memory) (a : Nat) (v : Int)
    (ha : a < 0x2000) (hlen : m.ram.length = RAM_SIZE) :
    (m.write a v).read a = some (Memory.maskByte v) := by
  unfold Memory.write Memory.read
  rw [if_pos ha, if_pos ha]
  simp only
  rw [List.getElem?_set_eq_of_lt]
  rw [hlen]
  exact Nat.mod_lt _ (by norm_num [RAM_SIZE])

/-- RAM length and byte-valuedness of all cells survive a sequence of
writes from a freshly constructed Address Space. -/
theorem applyWrites_ram (ws : List (Nat × Int)) (m : Memory)
    (hlen : m.ram.length = RAM_SIZE) (hcells : ∀ c ∈ m.ram, c < 256) :
    (applyWrites ws m).ram.length = RAM_SIZE ∧
    ∀ c ∈ (applyWrites ws m).ram, c < 256 := by
  induction ws generalizing m with
  | nil => exact ⟨hlen, hcells⟩
  | cons av ws ih =>
    obtain ⟨a, v⟩ := av
    refine ih (m.write a v) ?_ ?_
    · unfold Memory.write
      split
      · simpa using hlen
      · exact hlen
    · intro c hc
      unfold Memory.write at hc
      split at hc
      · rcases List.mem_or_eq_of_mem_set hc with h | h
        · exact hcells c h
        · subst h
          exact maskByte_lt_256 v
      · exact hcells c hc

/-- C10: implicit RAM-cell invariant. `write(address, value)` stores
`value & 0xFF`, i.e. `value mod 256`, even when `value` lies outside
[0, 255] (including negative values), so after any sequence of reads and
writes from a freshly constructed Address Space (reads do not mutate
state), every cell of the 2048-byte work RAM is in [0, 255]. -/
theorem c10_ram_cell_invariant :
    (∀ (m : Memory) (a : Nat) (v : Int), a < 0x2000 → m.ram.length = RAM_SIZE →
      (m.write a v).read a = some ((v % 256).toNat) ∧ ((v % 256).toNat) < 256) ∧
    (∀ (ws : List (Nat × Int)) (rom : List Nat),
      (applyWrites ws (Memory.init rom)).ram.length = 0x800 ∧
      ∀ c ∈ (applyWrites ws (Memory.init rom)).ram, c < 256) := by
  constructor
  · intro m a v ha hlen
    exact ⟨Memory.write_read_back m a v ha hlen, maskByte_lt_256 v⟩
  · intro ws rom
    refine applyWrites_ram ws (Memory.init rom) ?_ ?_
    · show (List.replicate RAM_SIZE 0).length = RAM_SIZE
      simp
    · intro c hc
      have := List.eq_of_mem_replicate (show c ∈ List.replicate RAM_SIZE 0 from hc)
      omega

/-- C10 witness: writing 300 (outside [0, 255]) stores 44 = 300 mod 256,
and a short write sequence from a fresh Address Space keeps all cells in
range. -/
theorem c10_witness :
    (((Memory.init []).write 5 300).read 5 = some ((300 % 256 : Int)).toNat ∧
      ((300 % 256 : Int)).toNat < 256) ∧
    ((applyWrites [(5, 300), (6, -1)] (Memory.init [])).ram.length = 0x800 ∧
      ∀ c ∈ (applyWrites [(5, 300), (6, -1)] (Memory.init [])).ram, c < 256) := by
  constructor
  · exact c10_ram_cell_invariant.1 (Memory.init []) 5 300 (by norm_num)
      (by show (List.replicate RAM_SIZE 0).length = RAM_SIZE; simp)
  · exact c10_ram_cell_invariant.2 [(5, 300), (6, -1)] []

/-! ## C9 -/

/-- A byte pair combined little-endian stays below 0x10000. -/
theorem lo_hi_lt (lo hi : Nat) (hlo : lo < 256) (hhi : hi < 256) :
    lo ||| (hi <<< 8) < 0x10000 := by
  have h1 : lo < 2 ^ 16 := by omega
  have h2 : hi <<< 8 < 2 ^ 16 := by
    rw [Nat.shiftLeft_eq]
    have : (2 : Nat) ^ 8 = 256 := by norm_num
    rw [this]
    have : (2 : Nat) ^ 16 = 65536 := by norm_num
    rw [this]
    nlinarith
  have := Nat.or_lt_two_pow h1 h2
  omega

/-- A fetch failure aborts `step()` with the raised exception. -/
theorem step_fetch_none (cpu : CPU) (h : cpu.memory.read cpu.PC = none) :
    cpu.step = none := by
  unfold CPU.step
  rw [h]
  rfl

/-- Characterization of construction: a successfully constructed CPU has
the zeroed registers, `SP = 0xFD`, `status = 0x24`, and the reset-vector
word as PC. -/
theorem CPU.init_inv (m : Memory) (cpu : CPU) (h : CPU.init m = some cpu) :
    ∃ pc, m.read_word 0xFFFC = some pc ∧
      cpu = ⟨m, pc, 0, 0, 0, 0xFD, 0x24⟩ := by
  unfold CPU.init at h
  cases hrw : m.read_word 0xFFFC with
  | none =>
    rw [hrw] at h
    simp at h
  | some pc =>
    rw [hrw] at h
    simp only [Option.pure_def, Option.bind_eq_bind, Option.some_bind,
      Option.some.injEq] at h
    exact ⟨pc, rfl, h.symm⟩

/-- A successful word read from well-formed memory is below 0x10000. -/
theorem Memory.read_word_lt (m : Memory) (hwf : m.WF) (a w : Nat)
    (h : m.read_word a = some w) : w < 0x10000 := by
  unfold Memory.read_word at h
  cases hlo : m.read a with
  | none => rw [hlo] at h; simp at h
  | some lo =>
    rw [hlo] at h
    simp only [Option.pure_def, Option.bind_eq_bind, Option.some_bind] at h
    cases hhi : m.read ((a + 1) % 0x10000) with
    | none => rw [hhi] at h; simp at h
    | some hi =>
      rw [hhi] at h
      simp only [Option.some_bind, Option.some.injEq] at h
      rw [← h, Nat.or_comm]
      exact lo_hi_lt lo hi (m.read_lt_256 a lo hwf hlo)
        (m.read_lt_256 _ hi hwf hhi)

/-- Construction from well-formed memory yields a well-formed CPU. -/
theorem CPU.init_WF (m : Memory) (cpu : CPU) (hwf : m.WF)
    (h : CPU.init m = some cpu) : cpu.WF := by
  obtain ⟨pc, hrw, rfl⟩ := CPU.init_inv m cpu h
  exact ⟨hwf, by norm_num, by norm_num, by norm_num,
    m.read_word_lt hwf 0xFFFC pc hrw⟩

/-- One `step()` preserves well-formedness. -/
theorem CPU.step_WF (cpu cpu' : CPU) (hwf : cpu.WF)
    (hs : cpu.step = some cpu') : cpu'.WF := by
  obtain ⟨hmwf, hA, hX, hY, hPC⟩ := hwf
  cases hop : cpu.memory.read cpu.PC with
  | none => rw [step_fetch_none cpu hop] at hs; exact absurd hs (by simp)
  | some op =>
    by_cases hA9 : op = 0xA9
    · subst hA9
      obtain ⟨v, hv, rfl⟩ := step_lda_inv cpu cpu' hop hs
      exact ⟨hmwf, cpu.memory.read_lt_256 _ v hmwf hv, hX, hY, by dsimp only; omega⟩
    · by_cases hA2 : op = 0xA2
      · subst hA2
        obtain ⟨v, hv, rfl⟩ := step_ldx_inv cpu cpu' hop hs
        exact ⟨hmwf, hA, cpu.memory.read_lt_256 _ v hmwf hv, hY, by dsimp only; omega⟩
      · by_cases hA0 : op = 0xA0
        · subst hA0
          obtain ⟨v, hv, rfl⟩ := step_ldy_inv cpu cpu' hop hs
          exact ⟨hmwf, hA, hX, cpu.memory.read_lt_256 _ v hmwf hv, by dsimp only; omega⟩
        · by_cases h8D : op = 0x8D
          · subst h8D
            obtain ⟨lo, hi, hlo, hhi, rfl⟩ := step_sta_inv cpu cpu' hop hs
            exact ⟨cpu.memory.write_WF _ _ hmwf, hA, hX, hY, by dsimp only; omega⟩
          · by_cases h4C : op = 0x4C
            · subst h4C
              obtain ⟨lo, hi, hlo, hhi, rfl⟩ := step_jmp_inv cpu cpu' hop hs
              exact ⟨hmwf, hA, hX, hY,
                lo_hi_lt lo hi (cpu.memory.read_lt_256 _ lo hmwf hlo)
                  (cpu.memory.read_lt_256 _ hi hmwf hhi)⟩
            · by_cases hE8 : op = 0xE8
              · subst hE8
                rw [step_inx_fwd cpu hop] at hs
                injection hs with hs
                rw [← hs]
                exact ⟨hmwf, hA, by dsimp only; exact maskByte_lt_256 _, hY, by dsimp only; omega⟩
              · by_cases hCA : op = 0xCA
                · subst hCA
                  rw [step_dex_fwd cpu hop] at hs
                  injection hs with hs
                  rw [← hs]
                  exact ⟨hmwf, hA, by dsimp only; exact maskByte_lt_256 _, hY, by dsimp only; omega⟩
                · rw [step_nop_like cpu op hop hA9 hA2 hA0 h8D h4C hE8 hCA] at hs
                  injection hs with hs
                  rw [← hs]
                  exact ⟨hmwf, hA, hX, hY, by dsimp only; omega⟩

/-- `stepN` preserves well-formedness. -/
theorem CPU.stepN_WF (n : Nat) (cpu cpu' : CPU) (hwf : cpu.WF)
    (hs : CPU.stepN n cpu = some cpu') : cpu'.WF := by
  induction n generalizing cpu with
  | zero =>
    unfold CPU.stepN at hs
    injection hs with hs
    rw [← hs]
    exact hwf
  | succ n ih =>
    unfold CPU.stepN at hs
    cases h1 : cpu.step with
    | none => rw [h1] at hs; exact absurd hs (by simp)
    | some cpu1 =>
      rw [h1] at hs
      simp only [Option.some_bind] at hs
      exact ih cpu1 (CPU.step_WF cpu cpu1 hwf h1) hs

/-- C9: processor-state range invariant. From the initial state after
construction over any well-formed Address Space (byte-valued ROM, any
byte-valued RAM contents), every sequence of `step()` calls keeps `A`,
`X`, `Y` in [0, 255] and `PC` in [0, 0xFFFF]. -/
theorem c9_register_ranges (m : Memory) (hwf : m.WF) (cpu0 : CPU)
    (hinit : CPU.init m = some cpu0) (n : Nat) (cpu : CPU)
    (hrun : CPU.stepN n cpu0 = some cpu) :
    cpu.A ≤ 255 ∧ cpu.X ≤ 255 ∧ cpu.Y ≤ 255 ∧ cpu.PC ≤ 0xFFFF := by
  have h0 : cpu0.WF := CPU.init_WF m cpu0 hwf hinit
  obtain ⟨-, hA, hX, hY, hPC⟩ := CPU.stepN_WF n cpu0 cpu h0 hrun
  exact ⟨by omega, by omega, by omega, by omega⟩

/-- C9 witness: the empty run over a one-byte ROM. -/
theorem c9_witness :
    (⟨Memory.init [7], 0x707, 0, 0, 0, 0xFD, 0x24⟩ : CPU).A ≤ 255 ∧
    (⟨Memory.init [7], 0x707, 0, 0, 0, 0xFD, 0x24⟩ : CPU).X ≤ 255 ∧
    (⟨Memory.init [7], 0x707, 0, 0, 0, 0xFD, 0x24⟩ : CPU).Y ≤ 255 ∧
    (⟨Memory.init [7], 0x707, 0, 0, 0, 0xFD, 0x24⟩ : CPU).PC ≤ 0xFFFF := by
  have hwf : (Memory.init [7]).WF := by
    refine ⟨?_, ?_, ?_⟩
    · show (List.replicate RAM_SIZE 0).length = RAM_SIZE
      simp
    · intro v hv
      have := List.eq_of_mem_replicate (show v ∈ List.replicate RAM_SIZE 0 from hv)
      omega
    · intro v hv
      have : v ∈ [7] := hv
      simp at this
      omega
  have hinit : CPU.init (Memory.init [7]) =
      some ⟨Memory.init [7], 0x707, 0, 0, 0, 0xFD, 0x24⟩ := by
    have hrw : (Memory.init [7]).read_word 0xFFFC = some 0x707 := by
      unfold Memory.read_word
      rw [show (Memory.init [7]).read 0xFFFC = some 7 by simp [Memory.init, Memory.read]]
      simp only [Option.pure_def, Option.bind_eq_bind, Option.some_bind]
      rw [show (0xFFFC + 1) % 0x10000 = 0xFFFD by norm_num]
      rw [show (Memory.init [7]).read 0xFFFD = some 7 by simp [Memory.init, Memory.read]]
      rfl
    unfold CPU.init
    rw [hrw]
    rfl
  exact c9_register_ranges (Memory.init [7]) hwf _ hinit 0 _ rfl

/-! ## C8 -/

/-- C8: end-to-end scenario. Over an Address Space whose bytes readable
at 0x8000.. are `A9 05 8D 00 02 4C 00 80` and whose reset vector makes
construction start at PC = 0x8000, three `step()` calls execute
`LDA #$05; STA $0200; JMP $8000`, leaving `A = 5`, `read(0x0200) = 5`
and `PC = 0x8000`. -/
theorem c8_end_to_end (m : Memory) (hram : m.ram.length = RAM_SIZE)
    (h0 : m.read 0x8000 = some 0xA9) (h1 : m.read 0x8001 = some 0x05)
    (h2 : m.read 0x8002 = some 0x8D) (h3 : m.read 0x8003 = some 0x00)
    (h4 : m.read 0x8004 = some 0x02) (h5 : m.read 0x8005 = some 0x4C)
    (h6 : m.read 0x8006 = some 0x00) (h7 : m.read 0x8007 = some 0x80)
    (cpu0 : CPU) (hinit : CPU.init m = some cpu0) (hpc : cpu0.PC = 0x8000) :
    ∃ cpu3, CPU.stepN 3 cpu0 = some cpu3 ∧ cpu3.A = 5 ∧
      cpu3.memory.read 0x0200 = some 5 ∧ cpu3.PC = 0x8000 := by
  obtain ⟨pc, hrw, rfl⟩ := CPU.init_inv m cpu0 hinit
  have hpc' : pc = 0x8000 := hpc
  subst hpc'
  have s1 : (⟨m, 0x8000, 0, 0, 0, 0xFD, 0x24⟩ : CPU).step =
      some ⟨m, 0x8002, 0x05, 0, 0, 0xFD, setZN 0x24 0x05⟩ := by
    have h := step_lda_fwd (⟨m, 0x8000, 0, 0, 0, 0xFD, 0x24⟩ : CPU) 0x05 h0
      (show m.read ((0x8000 + 1) % 0x10000) = some 0x05 by
        rw [show (0x8000 + 1) % 0x10000 = 0x8001 by norm_num]; exact h1)
    rw [h]
    rfl
  have s2 : (⟨m, 0x8002, 0x05, 0, 0, 0xFD, setZN 0x24 0x05⟩ : CPU).step =
      some ⟨m.write 0x0200 ((0x05 : Nat) : Int), 0x8005, 0x05, 0, 0, 0xFD, setZN 0x24 0x05⟩ := by
    have h := step_sta_fwd (⟨m, 0x8002, 0x05, 0, 0, 0xFD, setZN 0x24 0x05⟩ : CPU) 0x00 0x02 h2
      (show m.read ((0x8002 + 1) % 0x10000) = some 0x00 by
        rw [show (0x8002 + 1) % 0x10000 = 0x8003 by norm_num]; exact h3)
      (show m.read ((0x8002 + 2) % 0x10000) = some 0x02 by
        rw [show (0x8002 + 2) % 0x10000 = 0x8004 by norm_num]; exact h4)
    rw [h]
    rfl
  have s3 : (⟨m.write 0x0200 ((0x05 : Nat) : Int), 0x8005, 0x05, 0, 0, 0xFD, setZN 0x24 0x05⟩ : CPU).step =
      some ⟨m.write 0x0200 ((0x05 : Nat) : Int), 0x8000, 0x05, 0, 0, 0xFD, setZN 0x24 0x05⟩ := by
    have h := step_jmp_fwd
      (⟨m.write 0x0200 ((0x05 : Nat) : Int), 0x8005, 0x05, 0, 0, 0xFD, setZN 0x24 0x05⟩ : CPU)
      0x00 0x80
      (show (m.write 0x0200 ((0x05 : Nat) : Int)).read 0x8005 = some 0x4C from
        (Memory.read_write_high m 0x0200 _ 0x8005 (by norm_num)).trans h5)
      (show (m.write 0x0200 ((0x05 : Nat) : Int)).read ((0x8005 + 1) % 0x10000) = some 0x00 by
        rw [show (0x8005 + 1) % 0x10000 = 0x8006 by norm_num]
        exact (Memory.read_write_high m 0x0200 _ 0x8006 (by norm_num)).trans h6)
      (show (m.write 0x0200 ((0x05 : Nat) : Int)).read ((0x8005 + 2) % 0x10000) = some 0x80 by
        rw [show (0x8005 + 2) % 0x10000 = 0x8007 by norm_num]
        exact (Memory.read_write_high m 0x0200 _ 0x8007 (by norm_num)).trans h7)
    rw [h]
    rfl
  refine ⟨⟨m.write 0x0200 ((0x05 : Nat) : Int), 0x8000, 0x05, 0, 0, 0xFD, setZN 0x24 0x05⟩,
    ?_, rfl, ?_, rfl⟩
  · show CPU.stepN (2 + 1) _ = _
    unfold CPU.stepN
    rw [s1]
    simp only [Option.some_bind]
    show CPU.stepN (1 + 1) _ = _
    unfold CPU.stepN
    rw [s2]
    simp only [Option.some_bind]
    show CPU.stepN (0 + 1) _ = _
    unfold CPU.stepN
    rw [s3]
    simp only [Option.some_bind]
    rfl
  · show (m.write 0x0200 ((0x05 : Nat) : Int)).read 0x0200 = some 5
    exact Memory.write_read_back m 0x0200 _ (by norm_num) hram

/-- C8 witness: a concrete 16-byte ROM holding the program at its start
and the reset vector 0x8000 at offsets 12/13 (where addresses
0xFFFC/0xFFFD land after mirroring mod 16). -/
theorem c8_witness :
    ∃ cpu3, CPU.stepN 3
        (⟨Memory.init [0xA9, 0x05, 0x8D, 0x00, 0x02, 0x4C, 0x00, 0x80,
            0, 0, 0, 0, 0x00, 0x80, 0, 0], 0x8000, 0, 0, 0, 0xFD, 0x24⟩ : CPU) =
      some cpu3 ∧ cpu3.A = 5 ∧ cpu3.memory.read 0x0200 = some 5 ∧ cpu3.PC = 0x8000 := by
  have hinit : CPU.init (Memory.init [0xA9, 0x05, 0x8D, 0x00, 0x02, 0x4C, 0x00, 0x80,
      0, 0, 0, 0, 0x00, 0x80, 0, 0]) =
      some (⟨Memory.init [0xA9, 0x05, 0x8D, 0x00, 0x02, 0x4C, 0x00, 0x80,
        0, 0, 0, 0, 0x00, 0x80, 0, 0], 0x8000, 0, 0, 0, 0xFD, 0x24⟩ : CPU) := by
    have hrw : (Memory.init [0xA9, 0x05, 0x8D, 0x00, 0x02, 0x4C, 0x00, 0x80,
        0, 0, 0, 0, 0x00, 0x80, 0, 0]).read_word 0xFFFC = some 0x8000 := by
      unfold Memory.read_word
      rw [show (Memory.init [0xA9, 0x05, 0x8D, 0x00, 0x02, 0x4C, 0x00, 0x80,
        0, 0, 0, 0, 0x00, 0x80, 0, 0]).read 0xFFFC = some 0x00 by
          simp [Memory.init, Memory.read]]
      simp only [Option.pure_def, Option.bind_eq_bind, Option.some_bind]
      rw [show (0xFFFC + 1) % 0x10000 = 0xFFFD by norm_num]
      rw [show (Memory.init [0xA9, 0x05, 0x8D, 0x00, 0x02, 0x4C, 0x00, 0x80,
        0, 0, 0, 0, 0x00, 0x80, 0, 0]).read 0xFFFD = some 0x80 by
          simp [Memory.init, Memory.read]]
      rfl
    unfold CPU.init
    rw [hrw]
    rfl
  exact c8_end_to_end _
    (by show (List.replicate RAM_SIZE 0).length = RAM_SIZE; simp)
    (by simp [Memory.init, Memory.read]) (by simp [Memory.init, Memory.read])
    (by simp [Memory.init, Memory.read]) (by simp [Memory.init, Memory.read])
    (by simp [Memory.init, Memory.read]) (by simp [Memory.init, Memory.read])
    (by simp [Memory.init, Memory.read]) (by simp [Memory.init, Memory.read])
    _ hinit rfl
